import Mathlib

/- Verification of the per-window statistical reducers of setComparisons.c:
   the two-sample Welch t-test and the Mann-Whitney U reduction over two
   groups of synchronized replicate tracks.

   Modelling conventions.  All arithmetic the C code performs itself on
   doubles and ints is modelled exactly: double arithmetic as exact rational
   arithmetic (the claims under study are about the algebraic dataflow, not
   rounding), C int arithmetic as natural-number arithmetic including
   truncating integer division where the source uses it.  The external
   library functions are modelled as real functions: sqrt from libm as
   Real.sqrt, and erf (libm) and gsl_cdf_tdist_Q (GSL) as function
   parameters, since the code only forwards their outputs.

   The Multiset window synchronizer lives in multiSet.c / multiSet.h, which
   is outside the sources under verification; the window data it hands to a
   reducer is modelled from the spec (see SCGroup, SCWindow, groupInPlay).
   The lazy pull-iterator plumbing (pop / newWiggleIterator) is flattened:
   one call of the per-window compute step becomes a function from the
   current window to an optional emitted value, and the retry loop
   TTestReductionPop / MWUReductionPop becomes a filterMap over the stream
   of windows, so a skipped window is one whose step yields none. -/

/-- Modelled from the spec: a group as the Window Synchronizer exposes it
to a reducer — the ordered list of its replicates, each an in-play flag
(multis[g]->inplay[index]) paired with the current value
(multi->values[g][index]); the group's fixed replicate count
multis[g]->count is the length of the list. -/
abbrev SCGroup := List (Bool × ℚ)

/-- Modelled from the spec: the synchronizer's current window restricted to
what the reducers read, namely the two groups of replicate flags and
values.  The (chrom, start, finish) triple is copied through unchanged by
both reducers and is omitted from the model. -/
structure SCWindow where
  g1 : SCGroup
  g2 : SCGroup

/-- Modelled from the spec: the aggregated per-group in-play flag
multi->inplay[g] — a group is in play at a window when at least one of its
replicates has a defined value there. -/
def groupInPlay (g : SCGroup) : Bool := g.any (fun p => p.1)

/-- Number of in-play replicates of a group at the current window. -/
def inPlayCount (g : SCGroup) : ℕ := (g.filter (fun p => p.1)).length

/-- Sum over in-play values only (setComparisons.c lines 86-91: sum1 is
increased by values[0][index] exactly when inplay[index] holds). -/
def gSum : SCGroup → ℚ
  | [] => 0
  | p :: r => (if p.1 then p.2 else 0) + gSum r

/-- Sum of squares over in-play values only (lines 86-91: sumSq1 is
increased by values[0][index] * values[0][index]). -/
def gSumSq : SCGroup → ℚ
  | [] => 0
  | p :: r => (if p.1 then p.2 * p.2 else 0) + gSumSq r

/-- mean = sum / count with count the group's full replicate count
(line 107: mean1 = sum1 / count1 where count1 = multis[0]->count). -/
def codeMean (g : SCGroup) : ℚ := gSum g / (g.length : ℚ)

/-- meanSq = sumSq / count (line 109). -/
def codeMeanSq (g : SCGroup) : ℚ := gSumSq g / (g.length : ℚ)

/-- var = meanSq - mean * mean (line 111). -/
def codeVar (g : SCGroup) : ℚ := codeMeanSq g - codeMean g * codeMean g

/-- The t statistic of line 122, t = (mean1 - mean2) / sqrt(var1/count1 +
var2/count2), with the sign flip of lines 124-125 (if t < 0 then t = -t)
folded into an absolute value. -/
noncomputable def codeT (w : SCWindow) : ℝ :=
  |((codeMean w.g1 - codeMean w.g2 : ℚ) : ℝ) /
    Real.sqrt ((codeVar w.g1 / (w.g1.length : ℚ) + codeVar w.g2 / (w.g2.length : ℚ) : ℚ) : ℝ)|

/-- Degrees of freedom nu of line 129, exactly as written there (note the
products var1 * var1 and count1 * count1 * (count1 - 1)). -/
def codeNu (w : SCWindow) : ℚ :=
  (codeVar w.g1 / (w.g1.length : ℚ) + codeVar w.g2 / (w.g2.length : ℚ)) *
      (codeVar w.g1 / (w.g1.length : ℚ) + codeVar w.g2 / (w.g2.length : ℚ)) /
    ((codeVar w.g1 * codeVar w.g1) /
        ((w.g1.length : ℚ) * (w.g1.length : ℚ) * ((w.g1.length : ℚ) - 1)) +
      (codeVar w.g2 * codeVar w.g2) /
        ((w.g2.length : ℚ) * (w.g2.length : ℚ) * ((w.g2.length : ℚ) - 1)))

/-- One step of TTestReductionPop2 (lines 52-138) on the current window,
with the pull-iterator plumbing flattened: the skip loop of lines 65-71
(advance while either group has no in-play replicate), the defensive count
guard of lines 100-105, the zero-variance guard of lines 114-118, and the
emission wi->value = 2 * gsl_cdf_tdist_Q(t, nu) of line 133.  Q is the
abstract model of gsl_cdf_tdist_Q.  A result of none means the window is
skipped (never emitted); some v means the window is emitted with value v. -/
noncomputable def TTestReductionPop2 (Q : ℝ → ℝ → ℝ) (w : SCWindow) : Option ℝ :=
  if groupInPlay w.g1 = true ∧ groupInPlay w.g2 = true then
    if w.g1.length = 0 ∨ w.g2.length = 0 then none
    else if codeVar w.g1 + codeVar w.g2 = 0 then none
    else some (2 * Q (codeT w) ((codeNu w : ℚ) : ℝ))
  else none

/-- The retry loop TTestReductionPop (lines 140-144) over a finite stream
of windows: the emitted output stream keeps exactly the windows whose step
produces a value. -/
noncomputable def TTestReductionPop (Q : ℝ → ℝ → ℝ) (ws : List SCWindow) : List ℝ :=
  ws.filterMap (TTestReductionPop2 Q)

/-- ValueSetPair (lines 160-163): one ranking-table entry, a value tagged
with its group (set = false for group 1, true for group 2). -/
structure VSP where
  value : ℚ
  set : Bool
  deriving DecidableEq

/-- The lookahead of lines 263-266: starting after the current entry, walk
forward while values stay equal to the current value and count the entries
of group 2 seen (entries of group 1 inside the run are walked over). -/
def countTiesAll (v : ℚ) : List VSP → ℕ
  | [] => 0
  | e :: r => if e.value = v then (if e.set then 1 else 0) + countTiesAll v r else 0

/-- The lookahead of lines 254-256: walk forward while values stay equal to
the current value and the entry is from group 2, counting the entries
walked (this scan stops at the first group-1 entry). -/
def countTiesConsec (v : ℚ) : List VSP → ℕ
  | [] => 0
  | e :: r => if e.value = v ∧ e.set then 1 + countTiesConsec v r else 0

/-- The rank scan of lines 242-273 over the sorted ranking table.  State:
index = current table position, prev = group-1 entries consumed, ties and
previousTies = the tie-run counters, U1 = the accumulated rank sum.  The
loop runs while entries remain and prev < n1; on a group-1 entry it adds
index - prev and then performs the tie corrections exactly as in the
source. -/
def mwuScanAux (n1 : ℕ) : List VSP → ℕ → ℕ → ℕ → ℕ → ℚ → ℚ
  | [], _, _, _, _, U1 => U1
  | e :: rest, index, prev, ties, previousTies, U1 =>
    if prev < n1 then
      if e.set then mwuScanAux n1 rest (index + 1) prev ties previousTies U1
      else
        let U1a := U1 + ((index : ℚ) - (prev : ℚ))
        if ties ≠ 0 then
          let pT := previousTies + countTiesConsec e.value rest
          let U1b := U1a - (pT : ℚ) / 2 + ((ties : ℚ) - (pT : ℚ)) / 2
          if pT = ties then mwuScanAux n1 rest (index + 1) (prev + 1) 0 0 U1b
          else mwuScanAux n1 rest (index + 1) (prev + 1) ties pT U1b
        else
          let t2 := countTiesAll e.value rest
          let U1b := if t2 ≠ 0 then U1a + (t2 : ℚ) / 2 else U1a
          mwuScanAux n1 rest (index + 1) (prev + 1) t2 previousTies U1b
    else U1

/-- U1 as computed from a sorted ranking table (lines 242-248 initialize
U1 = 0, prev = 0, ties = 0, previousTies = 0 and start at index 0). -/
def mwuScan (n1 : ℕ) (table : List VSP) : ℚ := mwuScanAux n1 table 0 0 0 0 0

/-- Ranking-table population of lines 221-237: first the n1 group-1
replicates (in-play value, else 0) tagged false, then the n2 group-2
replicates tagged true. -/
def buildRankingTable (w : SCWindow) : List VSP :=
  w.g1.map (fun p => ⟨if p.1 then p.2 else 0, false⟩) ++
    w.g2.map (fun p => ⟨if p.1 then p.2 else 0, true⟩)

/-- Model of qsort with compareValueSetPairs (lines 183-191, ascending by
value): an insertion sort that keeps tied entries in their original
relative order.  qsort leaves the order of tied entries unspecified, so
theorems about tie handling quantify over arbitrary sorted arrangements
and this definition only fixes one concrete, legitimate qsort outcome. -/
def insertVSP (e : VSP) : List VSP → List VSP
  | [] => [e]
  | f :: r => if e.value ≤ f.value then e :: f :: r else f :: insertVSP e r

/-- Full sort of the ranking table (line 239). -/
def sortTable (l : List VSP) : List VSP := l.foldr insertVSP []

/-- U1 for the current window: populate the table, sort it, scan it
(data->n1 = multis[0]->count = length of group 1). -/
def windowU1 (w : SCWindow) : ℚ := mwuScan w.g1.length (sortTable (buildRankingTable w))

/-- mu_U of line 308: data->mu_U = data->n1 * data->n2 / 2.  The operands
are C ints, so / is truncating integer division, and only the already
truncated result is stored into the double field. -/
def mu_U (n1 n2 : ℕ) : ℚ := ((n1 * n2 / 2 : ℕ) : ℚ)

/-- sigma_U of line 309: sqrt(n1 * n2 * (n1 + n2 + 1) / 12) where the
argument is computed in C int arithmetic (truncating division by 12)
before being converted to double for sqrt. -/
noncomputable def sigma_U (n1 n2 : ℕ) : ℝ :=
  Real.sqrt ((n1 * n2 * (n1 + n2 + 1) / 12 : ℕ) : ℝ)

/-- One step of MWUReductionPop2 (lines 193-285) on the current window,
flattened like TTestReductionPop2: the skip loop of lines 206-212, then
table population, sort and rank scan (windowU1), then the normal
approximation branch of lines 275-280 (normalApproximation is always set
to true at construction, line 305-307).  erf is the abstract model of the
libm error function. -/
noncomputable def MWUReductionPop2 (erf : ℝ → ℝ) (w : SCWindow) : Option ℝ :=
  if groupInPlay w.g1 = true ∧ groupInPlay w.g2 = true then
    if windowU1 w > mu_U w.g1.length w.g2.length then
      some (2 * erf (((mu_U w.g1.length w.g2.length - windowU1 w : ℚ) : ℝ) /
        sigma_U w.g1.length w.g2.length))
    else
      some (2 * erf (((windowU1 w - mu_U w.g1.length w.g2.length : ℚ) : ℝ) /
        sigma_U w.g1.length w.g2.length))
  else none

/-- The retry loop MWUReductionPop (lines 288-292) over a finite stream of
windows. -/
noncomputable def MWUReductionPop (erf : ℝ → ℝ) (ws : List SCWindow) : List ℝ :=
  ws.filterMap (MWUReductionPop2 erf)

/-- Constructor validation of TTestReduction (lines 146-154).  The multiset
is represented by the list of its groups' replicate counts (multi->count is
the length, multis[i]->count the entries); exit(1) after the diagnostic
puts(...) is modelled as Except.error with the printed message, and a
successful construction as Except.ok. -/
def TTestReduction (counts : List ℕ) : Except String Unit :=
  if counts.length ≠ 2 ∨ counts.getD 0 0 + counts.getD 1 0 < 3 then
    Except.error "The t-test function only works for two sets with enough elements to compute variance"
  else Except.ok ()

/-- The fields of MWUData that MWUReduction fills in at construction
(lines 300-309); the ranking-table allocation is represented by N, its
size. -/
structure MWUConfig where
  n1 : ℕ
  n2 : ℕ
  N : ℕ
  normalApproximation : Bool
  mu : ℚ
  sigma : ℝ

/-- Constructor validation of MWUReduction (lines 294-311), with the same
conventions as TTestReduction. -/
noncomputable def MWUReduction (counts : List ℕ) : Except String MWUConfig :=
  if counts.length ≠ 2 ∨ counts.getD 0 0 = 0 ∨ counts.getD 1 0 = 0 then
    Except.error "The Mann-Whitney U function only works for two non-empty sets"
  else
    Except.ok ⟨counts.getD 0 0, counts.getD 1 0, counts.getD 0 0 + counts.getD 1 0, true,
      mu_U (counts.getD 0 0) (counts.getD 1 0), sigma_U (counts.getD 0 0) (counts.getD 1 0)⟩

/-- Spec formula: the per-group sum over in-play values only, written as
the spec says it (filter the in-play replicates, sum their values). -/
def specSum (g : SCGroup) : ℚ := ((g.filter (fun p => p.1)).map (fun p => p.2)).sum

/-- Spec formula: the per-group sum of squares over in-play values only. -/
def specSumSq (g : SCGroup) : ℚ := ((g.filter (fun p => p.1)).map (fun p => p.2 ^ 2)).sum

/-- Spec formula: mean_g = sum_g / n_g with n_g the group's fixed
replicate count. -/
def specMean (g : SCGroup) : ℚ := specSum g / (g.length : ℚ)

/-- Spec formula: var_g = sumSq_g / n_g - mean_g ^ 2. -/
def specVar (g : SCGroup) : ℚ := specSumSq g / (g.length : ℚ) - specMean g ^ 2

/-- Spec formula: the Welch statistic t = |mean1 - mean2| /
sqrt(var1/n1 + var2/n2). -/
noncomputable def welchT_spec (w : SCWindow) : ℝ :=
  |((specMean w.g1 : ℚ) : ℝ) - ((specMean w.g2 : ℚ) : ℝ)| /
    Real.sqrt (((specVar w.g1 : ℚ) : ℝ) / (w.g1.length : ℝ) +
      ((specVar w.g2 : ℚ) : ℝ) / (w.g2.length : ℝ))

/-- Spec formula: the Satterthwaite degrees of freedom
df = (var1/n1 + var2/n2)^2 / (var1^2/(n1^2 (n1-1)) + var2^2/(n2^2 (n2-1))). -/
noncomputable def df_spec (w : SCWindow) : ℝ :=
  (((specVar w.g1 : ℚ) : ℝ) / (w.g1.length : ℝ) +
      ((specVar w.g2 : ℚ) : ℝ) / (w.g2.length : ℝ)) ^ 2 /
    (((specVar w.g1 : ℚ) : ℝ) ^ 2 / ((w.g1.length : ℝ) ^ 2 * ((w.g1.length : ℝ) - 1)) +
      ((specVar w.g2 : ℚ) : ℝ) ^ 2 / ((w.g2.length : ℝ) ^ 2 * ((w.g2.length : ℝ) - 1)))

/-- Spec formula: mu_U = n1 * n2 / 2 as exact rational arithmetic. -/
def mu_U_spec (n1 n2 : ℕ) : ℚ := (n1 * n2 : ℚ) / 2

/-- Spec formula: sigma_U = sqrt(n1 * n2 * (n1 + n2 + 1) / 12) as exact
real arithmetic. -/
noncomputable def sigma_U_spec (n1 n2 : ℕ) : ℝ :=
  Real.sqrt ((n1 * n2 * (n1 + n2 + 1) : ℝ) / 12)

/-- Every replicate of both groups is in play and carries the value c
(an abbreviation so that decidability is found by unfolding). -/
abbrev allInPlayConst (c : ℚ) (w : SCWindow) : Prop :=
  ∀ p ∈ w.g1 ++ w.g2, p = (true, c)

/- Helper lemmas bridging the code-side and spec-side definitions. -/

theorem gSum_eq_specSum (g : SCGroup) : gSum g = specSum g := by
  induction g with
  | nil => rfl
  | cons p r ih =>
    rcases p with ⟨b, v⟩
    cases b <;> simp [gSum, specSum, List.filter_cons, ih]

theorem gSumSq_eq_specSumSq (g : SCGroup) : gSumSq g = specSumSq g := by
  induction g with
  | nil => rfl
  | cons p r ih =>
    rcases p with ⟨b, v⟩
    cases b <;> simp [gSumSq, specSumSq, List.filter_cons, pow_two, ih]

theorem codeMean_eq_specMean (g : SCGroup) : codeMean g = specMean g := by
  rw [codeMean, specMean, gSum_eq_specSum]

theorem codeVar_eq_specVar (g : SCGroup) : codeVar g = specVar g := by
  rw [codeVar, specVar, codeMeanSq, codeMean, gSum_eq_specSum, gSumSq_eq_specSumSq, specMean]
  ring

theorem groupInPlay_length_ne_zero {g : SCGroup} (h : groupInPlay g = true) :
    g.length ≠ 0 := by
  cases g with
  | nil => simp [groupInPlay] at h
  | cons p r => simp

theorem inPlayCount_zero_iff (g : SCGroup) :
    inPlayCount g = 0 ↔ ¬ groupInPlay g = true := by
  simp [inPlayCount, groupInPlay, List.length_eq_zero, List.filter_eq_nil_iff]

theorem codeT_eq_welchT_spec (w : SCWindow) : codeT w = welchT_spec w := by
  rw [codeT, welchT_spec, codeMean_eq_specMean, codeMean_eq_specMean,
    codeVar_eq_specVar, codeVar_eq_specVar]
  rw [abs_div, abs_of_nonneg (Real.sqrt_nonneg _)]
  push_cast
  ring_nf

theorem codeNu_cast_eq_df_spec (w : SCWindow) : ((codeNu w : ℚ) : ℝ) = df_spec w := by
  rw [codeNu, df_spec, codeVar_eq_specVar, codeVar_eq_specVar]
  push_cast
  ring_nf

theorem gSum_const (c : ℚ) (g : SCGroup) (h : ∀ p ∈ g, p = (true, c)) :
    gSum g = (g.length : ℚ) * c := by
  induction g with
  | nil => simp [gSum]
  | cons p r ih =>
    have hp := h p (List.mem_cons_self _ _)
    have hr : ∀ q ∈ r, q = (true, c) := fun q hq => h q (List.mem_cons_of_mem _ hq)
    subst hp
    simp only [gSum, ih hr, List.length_cons, if_pos]
    push_cast
    ring

theorem gSumSq_const (c : ℚ) (g : SCGroup) (h : ∀ p ∈ g, p = (true, c)) :
    gSumSq g = (g.length : ℚ) * (c * c) := by
  induction g with
  | nil => simp [gSumSq]
  | cons p r ih =>
    have hp := h p (List.mem_cons_self _ _)
    have hr : ∀ q ∈ r, q = (true, c) := fun q hq => h q (List.mem_cons_of_mem _ hq)
    subst hp
    simp only [gSumSq, ih hr, List.length_cons, if_pos]
    push_cast
    ring

theorem codeVar_const (c : ℚ) (g : SCGroup) (h : ∀ p ∈ g, p = (true, c))
    (hlen : g.length ≠ 0) : codeVar g = 0 := by
  have hQ : (g.length : ℚ) ≠ 0 := Nat.cast_ne_zero.mpr hlen
  rw [codeVar, codeMeanSq, codeMean, gSum_const c g h, gSumSq_const c g h,
    mul_div_cancel_left₀ _ hQ, mul_div_cancel_left₀ _ hQ]
  ring

theorem countTiesAll_replicate (v : ℚ) (n : ℕ) :
    countTiesAll v (List.replicate n ⟨v, true⟩) = n := by
  induction n with
  | zero => rfl
  | succ k ih => simp [List.replicate, countTiesAll, ih, Nat.add_comm]

theorem mwuScanAux_stop (n1 : ℕ) (l : List VSP) (index prev ties pT : ℕ) (U1 : ℚ)
    (h : ¬ prev < n1) : mwuScanAux n1 l index prev ties pT U1 = U1 := by
  cases l with
  | nil => rfl
  | cons e r => simp [mwuScanAux, h]

/- Claim theorems. -/

/-- C1: for every qualifying window (both groups have at least one in-play
replicate and var1 + var2 is nonzero), the T-Test reducer emits
2 * Q(t, df) where Q models the Student t survival function
gsl_cdf_tdist_Q, t is the Welch statistic |mean1 - mean2| /
sqrt(var1/n1 + var2/n2) and df the Satterthwaite degrees of freedom, the
sums ranging over in-play values only and the means and population
variances dividing by the groups' fixed replicate counts. -/
theorem ttest_emits_welch_two_sided_p (Q : ℝ → ℝ → ℝ) (w : SCWindow)
    (h1 : groupInPlay w.g1 = true) (h2 : groupInPlay w.g2 = true)
    (hvar : specVar w.g1 + specVar w.g2 ≠ 0) :
    TTestReductionPop2 Q w = some (2 * Q (welchT_spec w) (df_spec w)) := by
  have hl1 : w.g1.length ≠ 0 := groupInPlay_length_ne_zero h1
  have hl2 : w.g2.length ≠ 0 := groupInPlay_length_ne_zero h2
  unfold TTestReductionPop2
  rw [if_pos ⟨h1, h2⟩, if_neg (by simp [hl1, hl2]),
    if_neg (by rw [codeVar_eq_specVar, codeVar_eq_specVar]; exact hvar),
    codeT_eq_welchT_spec, codeNu_cast_eq_df_spec]

/-- C1 witness, at the spec's worked example: group 1 = [1, 2, 3] and
group 2 = [4, 5], all replicates in play, with the survival function
instantiated to an arbitrary concrete function. -/
theorem ttest_emits_welch_two_sided_p_witness :
    TTestReductionPop2 (fun _ _ => (0 : ℝ))
        ⟨[(true, 1), (true, 2), (true, 3)], [(true, 4), (true, 5)]⟩ =
      some (2 * (fun _ _ => (0 : ℝ))
        (welchT_spec ⟨[(true, 1), (true, 2), (true, 3)], [(true, 4), (true, 5)]⟩)
        (df_spec ⟨[(true, 1), (true, 2), (true, 3)], [(true, 4), (true, 5)]⟩)) :=
  ttest_emits_welch_two_sided_p _ _ (by decide) (by decide)
    (by norm_num [specVar, specSum, specSumSq, specMean, List.filter_cons])

/-- C2 counterexample: with n1 = n2 = 2 and all four ranking-table values
equal, the arrangement group-1, group-1, group-2, group-2 (the one a
stable qsort produces from the table's population order, and certainly
sorted ascending) yields U1 = 0, while the interleaved arrangement yields
U1 = 2; so the rank-sum scan on an all-tied window is not tie-order
independent and does not always produce n1 * n2 / 2 = 2. -/
theorem mwu_allties_order_dependent_cex :
    mwuScan 2 [⟨5, false⟩, ⟨5, false⟩, ⟨5, true⟩, ⟨5, true⟩] = 0 ∧
    mwuScan 2 [⟨5, false⟩, ⟨5, true⟩, ⟨5, false⟩, ⟨5, true⟩] = 2 ∧
    windowU1 ⟨[(true, 5), (true, 5)], [(true, 5), (true, 5)]⟩ = 0 ∧
    (0 : ℚ) ≠ (2 * 2 : ℚ) / 2 :=
  ⟨by norm_num [mwuScan, mwuScanAux, countTiesAll, countTiesConsec],
   by norm_num [mwuScan, mwuScanAux, countTiesAll, countTiesConsec],
   by norm_num [windowU1, sortTable, buildRankingTable, insertVSP, mwuScan, mwuScanAux,
     countTiesAll, countTiesConsec],
   by norm_num⟩

/-- C2 (amended): the rank-sum scan's result on an all-tied table depends
on the order in which the sort arranges the tied entries; the claimed
identity U1 = n1 * n2 / 2 does hold when n1 = 1 and the single group-1
entry is placed first among the ties. -/
theorem mwu_allties_n1_one_u1_half (v : ℚ) (n2 : ℕ) :
    mwuScan 1 (⟨v, false⟩ :: List.replicate n2 ⟨v, true⟩) = (1 * n2 : ℚ) / 2 := by
  have hstop : ∀ (l : List VSP) (index ties pT : ℕ) (U1 : ℚ),
      mwuScanAux 1 l index 1 ties pT U1 = U1 :=
    fun l index ties pT U1 => mwuScanAux_stop 1 l index 1 ties pT U1 (by omega)
  rw [mwuScan, mwuScanAux]
  norm_num [countTiesAll_replicate, hstop]
  intro h0
  subst h0
  norm_num

/-- C4: both reducers emit a record only at windows where each group has at
least one in-play replicate; a window failing this is skipped (its step
yields none, so the filterMap output stream never contains it). -/
theorem reducers_emit_only_qualifying_windows (Q : ℝ → ℝ → ℝ) (erf : ℝ → ℝ)
    (w : SCWindow) :
    (¬(groupInPlay w.g1 = true ∧ groupInPlay w.g2 = true) →
      TTestReductionPop2 Q w = none ∧ MWUReductionPop2 erf w = none) ∧
    (∀ v, TTestReductionPop2 Q w = some v →
      groupInPlay w.g1 = true ∧ groupInPlay w.g2 = true) ∧
    (∀ v, MWUReductionPop2 erf w = some v →
      groupInPlay w.g1 = true ∧ groupInPlay w.g2 = true) := by
  refine ⟨fun h => ⟨?_, ?_⟩, fun v hv => ?_, fun v hv => ?_⟩
  · unfold TTestReductionPop2
    rw [if_neg h]
  · unfold MWUReductionPop2
    rw [if_neg h]
  · by_contra h
    unfold TTestReductionPop2 at hv
    rw [if_neg h] at hv
    exact Option.noConfusion hv
  · by_contra h
    unfold MWUReductionPop2 at hv
    rw [if_neg h] at hv
    exact Option.noConfusion hv

/-- C4 witness: a window where group 1 has a replicate but none in play is
emitted by neither reducer. -/
theorem reducers_emit_only_qualifying_windows_witness :
    TTestReductionPop2 (fun _ _ => (0 : ℝ)) ⟨[(false, 5)], [(true, 1)]⟩ = none ∧
    MWUReductionPop2 (fun _ => (0 : ℝ)) ⟨[(false, 5)], [(true, 1)]⟩ = none :=
  (reducers_emit_only_qualifying_windows _ _ _).1 (by decide)

/-- C5 (amended): a window whose computed var1 + var2 is exactly zero is
skipped by the T-Test reducer without error — its step emits nothing and
the output stream simply continues with the remaining windows; in
particular a window in which every replicate of both groups is in play
with one constant value is absent from the T-Test output stream.  (The
original "both groups have identical constant in-play values" does not
suffice when some replicate is out of play, because the variance divides
by the full replicate count; see the counterexample.) -/
theorem ttest_zero_variance_skip (Q : ℝ → ℝ → ℝ) (w : SCWindow) :
    (codeVar w.g1 + codeVar w.g2 = 0 → TTestReductionPop2 Q w = none) ∧
    (∀ c, allInPlayConst c w → TTestReductionPop2 Q w = none) ∧
    (TTestReductionPop2 Q w = none →
      ∀ ws, TTestReductionPop Q (w :: ws) = TTestReductionPop Q ws) := by
  have skip : codeVar w.g1 + codeVar w.g2 = 0 → TTestReductionPop2 Q w = none := by
    intro hv
    unfold TTestReductionPop2
    by_cases hq : groupInPlay w.g1 = true ∧ groupInPlay w.g2 = true
    · rw [if_pos hq]
      by_cases hl : w.g1.length = 0 ∨ w.g2.length = 0
      · rw [if_pos hl]
      · rw [if_neg hl, if_pos hv]
    · rw [if_neg hq]
  refine ⟨skip, fun c hc => ?_, fun hn ws => ?_⟩
  · by_cases hq : groupInPlay w.g1 = true ∧ groupInPlay w.g2 = true
    · apply skip
      have h1 : ∀ p ∈ w.g1, p = (true, c) := fun p hp => hc p (List.mem_append_left _ hp)
      have h2 : ∀ p ∈ w.g2, p = (true, c) := fun p hp => hc p (List.mem_append_right _ hp)
      rw [codeVar_const c w.g1 h1 (groupInPlay_length_ne_zero hq.1),
        codeVar_const c w.g2 h2 (groupInPlay_length_ne_zero hq.2)]
      norm_num
    · unfold TTestReductionPop2
      rw [if_neg hq]
  · unfold TTestReductionPop
    simp [List.filterMap_cons, hn]

/-- C5 witness: a window with both groups fully in play and constant at 3
is skipped, and skipping drops it from the output stream. -/
theorem ttest_zero_variance_skip_witness :
    TTestReductionPop2 (fun _ _ => (0 : ℝ)) ⟨[(true, 3), (true, 3)], [(true, 3)]⟩ = none ∧
    TTestReductionPop (fun _ _ => (0 : ℝ)) [⟨[(true, 3), (true, 3)], [(true, 3)]⟩] =
      TTestReductionPop (fun _ _ => (0 : ℝ)) [] := by
  have h1 := (ttest_zero_variance_skip (fun _ _ => (0 : ℝ))
    ⟨[(true, 3), (true, 3)], [(true, 3)]⟩).2.1 3 (by decide)
  exact ⟨h1, (ttest_zero_variance_skip _ _).2.2 h1 []⟩

/-- C5 counterexample: both groups' in-play values are the identical
constant 1, but one replicate of group 1 is out of play, so the computed
variances (which divide by the full replicate counts) do not sum to zero
and the window IS emitted — it is not absent from the T-Test output. -/
theorem ttest_constant_inplay_emitted_cex :
    (∀ p ∈ ([(true, 1), (false, 0)] ++ [(true, 1)] : SCGroup), p.1 = true → p.2 = 1) ∧
    TTestReductionPop2 (fun _ _ => (0 : ℝ)) ⟨[(true, 1), (false, 0)], [(true, 1)]⟩ =
      some 0 := by
  refine ⟨by decide, ?_⟩
  unfold TTestReductionPop2
  rw [if_pos (by decide), if_neg (by decide),
    if_neg (by norm_num [codeVar, codeMeanSq, codeMean, gSum, gSumSq])]
  norm_num

/-- C6: a window at which either group's in-play replicate count is zero
is skipped by the T-Test reducer — no record is emitted and no error is
raised (the step is a total function yielding none, so scanning simply
continues).  This subsumes the guard of lines 100-105: under the
synchronizer contract a qualifying window always has nonzero replicate
counts, so that defensive re-check is unreachable and the skip happens in
the qualifying-window loop. -/
theorem ttest_zero_inplay_count_skip (Q : ℝ → ℝ → ℝ) (w : SCWindow)
    (h : inPlayCount w.g1 = 0 ∨ inPlayCount w.g2 = 0) :
    TTestReductionPop2 Q w = none := by
  have hnq : ¬(groupInPlay w.g1 = true ∧ groupInPlay w.g2 = true) := by
    rcases h with h | h
    · exact fun hq => (inPlayCount_zero_iff w.g1).mp h hq.1
    · exact fun hq => (inPlayCount_zero_iff w.g2).mp h hq.2
  unfold TTestReductionPop2
  rw [if_neg hnq]

/-- C6 witness: group 1 has one replicate, out of play. -/
theorem ttest_zero_inplay_count_skip_witness :
    TTestReductionPop2 (fun _ _ => (0 : ℝ)) ⟨[(false, 2)], [(true, 1)]⟩ = none :=
  ttest_zero_inplay_count_skip _ _ (Or.inl (by decide))

/-- C7: TTestReduction is fatal exactly when the group count differs from
two or n1 + n2 < 3, MWUReduction exactly when the group count differs
from two or either group is empty; otherwise a fully initialized reducer
is returned (for Mann-Whitney with all configuration fields set). -/
theorem construction_validation_exact (counts : List ℕ) :
    ((∃ e, TTestReduction counts = Except.error e) ↔
      counts.length ≠ 2 ∨ counts.getD 0 0 + counts.getD 1 0 < 3) ∧
    ((∃ e, MWUReduction counts = Except.error e) ↔
      counts.length ≠ 2 ∨ counts.getD 0 0 = 0 ∨ counts.getD 1 0 = 0) ∧
    (¬(counts.length ≠ 2 ∨ counts.getD 0 0 + counts.getD 1 0 < 3) →
      TTestReduction counts = Except.ok ()) ∧
    (∀ cfg, MWUReduction counts = Except.ok cfg →
      cfg.n1 = counts.getD 0 0 ∧ cfg.n2 = counts.getD 1 0 ∧ cfg.N = cfg.n1 + cfg.n2 ∧
        cfg.normalApproximation = true ∧ cfg.mu = mu_U cfg.n1 cfg.n2 ∧
        cfg.sigma = sigma_U cfg.n1 cfg.n2) := by
  refine ⟨⟨?_, ?_⟩, ⟨?_, ?_⟩, ?_, ?_⟩
  · rintro ⟨e, he⟩
    by_contra hc
    unfold TTestReduction at he
    rw [if_neg hc] at he
    exact Except.noConfusion he
  · intro hcond
    exact ⟨"The t-test function only works for two sets with enough elements to compute variance",
      by unfold TTestReduction; rw [if_pos hcond]⟩
  · rintro ⟨e, he⟩
    by_contra hc
    unfold MWUReduction at he
    rw [if_neg hc] at he
    exact Except.noConfusion he
  · intro hcond
    exact ⟨"The Mann-Whitney U function only works for two non-empty sets",
      by unfold MWUReduction; rw [if_pos hcond]⟩
  · intro hcond
    unfold TTestReduction
    rw [if_neg hcond]
  · intro cfg hcfg
    unfold MWUReduction at hcfg
    by_cases hc : counts.length ≠ 2 ∨ counts.getD 0 0 = 0 ∨ counts.getD 1 0 = 0
    · rw [if_pos hc] at hcfg
      exact Except.noConfusion hcfg
    · rw [if_neg hc] at hcfg
      injection hcfg with h2
      subst h2
      exact ⟨rfl, rfl, rfl, rfl, rfl, rfl⟩

/-- C7 witness: one group of one replicate and one empty group is fatal
for both constructors. -/
theorem construction_validation_exact_witness :
    (∃ e, TTestReduction [1, 0] = Except.error e) ∧
    (∃ e, MWUReduction [1, 0] = Except.error e) :=
  ⟨(construction_validation_exact [1, 0]).1.mpr (by decide),
   (construction_validation_exact [1, 0]).2.1.mpr (by decide)⟩

/-- C8: the Mann-Whitney reducer emits exactly one record for every
qualifying window — unlike the T-Test path it has no degeneracy skip, so
all-tied values, zero variance or a degenerate sigma_U still yield an
emitted record. -/
theorem mwu_qualifying_always_emits (erf : ℝ → ℝ) (w : SCWindow)
    (h1 : groupInPlay w.g1 = true) (h2 : groupInPlay w.g2 = true) :
    ∃ v, MWUReductionPop2 erf w = some v := by
  unfold MWUReductionPop2
  rw [if_pos ⟨h1, h2⟩]
  by_cases h : windowU1 w > mu_U w.g1.length w.g2.length
  · rw [if_pos h]
    exact ⟨_, rfl⟩
  · rw [if_neg h]
    exact ⟨_, rfl⟩

/-- C8 witness: an all-tied window (zero variance, fully degenerate
ranking table) is still emitted by the Mann-Whitney reducer. -/
theorem mwu_qualifying_always_emits_witness :
    ∃ v, MWUReductionPop2 (fun _ => (0 : ℝ))
      ⟨[(true, 7), (true, 7)], [(true, 7), (true, 7)]⟩ = some v :=
  mwu_qualifying_always_emits _ _ (by decide) (by decide)

/-- C9: when sigma_U > 0 (and erf has the sign behaviour of the C library
error function, namely nonpositive on nonpositive arguments and zero
exactly at zero), every value the Mann-Whitney reducer emits is ≤ 0, and
it is 0 exactly when U1 = mu_U: whichever branch of lines 275-280 is
taken puts the smaller of U1 and mu_U first in the numerator, so 2 * erf
is applied to a nonpositive argument. -/
theorem mwu_value_nonpositive (erf : ℝ → ℝ) (w : SCWindow) (v : ℝ)
    (hsign : ∀ x : ℝ, x ≤ 0 → erf x ≤ 0)
    (hzero : ∀ x : ℝ, erf x = 0 ↔ x = 0)
    (hs : 0 < sigma_U w.g1.length w.g2.length)
    (hv : MWUReductionPop2 erf w = some v) :
    v ≤ 0 ∧ (v = 0 ↔ windowU1 w = mu_U w.g1.length w.g2.length) := by
  unfold MWUReductionPop2 at hv
  by_cases hq : groupInPlay w.g1 = true ∧ groupInPlay w.g2 = true
  case neg =>
    rw [if_neg hq] at hv
    exact Option.noConfusion hv
  rw [if_pos hq] at hv
  by_cases hgt : windowU1 w > mu_U w.g1.length w.g2.length
  · rw [if_pos hgt] at hv
    have hval := Option.some.inj hv
    have hneg : ((mu_U w.g1.length w.g2.length - windowU1 w : ℚ) : ℝ) < 0 := by
      have h9 : (mu_U w.g1.length w.g2.length - windowU1 w : ℚ) < 0 := by linarith
      exact_mod_cast h9
    have harg : ((mu_U w.g1.length w.g2.length - windowU1 w : ℚ) : ℝ) /
        sigma_U w.g1.length w.g2.length < 0 := div_neg_of_neg_of_pos hneg hs
    have he : erf (((mu_U w.g1.length w.g2.length - windowU1 w : ℚ) : ℝ) /
        sigma_U w.g1.length w.g2.length) < 0 :=
      lt_of_le_of_ne (hsign _ harg.le)
        (fun h0 => absurd ((hzero _).mp h0) (ne_of_lt harg))
    subst hval
    refine ⟨by linarith, ?_, ?_⟩
    · intro h0
      linarith
    · intro h0
      exact absurd h0 (ne_of_gt hgt)
  · rw [if_neg hgt] at hv
    push_neg at hgt
    have hval := Option.some.inj hv
    have hle : ((windowU1 w - mu_U w.g1.length w.g2.length : ℚ) : ℝ) ≤ 0 := by
      have h9 : (windowU1 w - mu_U w.g1.length w.g2.length : ℚ) ≤ 0 := by linarith
      exact_mod_cast h9
    have harg : ((windowU1 w - mu_U w.g1.length w.g2.length : ℚ) : ℝ) /
        sigma_U w.g1.length w.g2.length ≤ 0 := div_nonpos_of_nonpos_of_nonneg hle hs.le
    subst hval
    refine ⟨by linarith [hsign _ harg], ?_, ?_⟩
    · intro h0
      have he0 : erf (((windowU1 w - mu_U w.g1.length w.g2.length : ℚ) : ℝ) /
          sigma_U w.g1.length w.g2.length) = 0 := by linarith
      have h8 := (hzero _).mp he0
      rw [div_eq_zero_iff] at h8
      rcases h8 with h8 | h8
      · have h9 : (windowU1 w - mu_U w.g1.length w.g2.length : ℚ) = 0 := by exact_mod_cast h8
        linarith
      · exact absurd h8 (ne_of_gt hs)
    · intro h0
      rw [h0, sub_self]
      norm_num [(hzero 0).mpr rfl]

/-- C9 witness, with erf instantiated to the identity (which has the
assumed sign behaviour) on a window with U1 = 0, mu_U = 2 and
sigma_U = 1, whose emitted value is -4. -/
theorem mwu_value_nonpositive_witness :
    (-4 : ℝ) ≤ 0 ∧ ((-4 : ℝ) = 0 ↔
      windowU1 ⟨[(true, 1), (true, 2)], [(true, 3), (true, 4)]⟩ = mu_U 2 2) := by
  have hσ : sigma_U 2 2 = 1 := by
    unfold sigma_U
    norm_num
  have hU : windowU1 (⟨[(true, 1), (true, 2)], [(true, 3), (true, 4)]⟩ : SCWindow) = 0 := by
    norm_num [windowU1, sortTable, buildRankingTable, insertVSP, mwuScan, mwuScanAux,
      countTiesAll, countTiesConsec]
  have hμ : mu_U 2 2 = 2 := by
    norm_num [mu_U]
  have hv : MWUReductionPop2 (fun x => x)
      (⟨[(true, 1), (true, 2)], [(true, 3), (true, 4)]⟩ : SCWindow) = some (-4) := by
    unfold MWUReductionPop2
    norm_num [hU, hμ, hσ, groupInPlay]
  have hs : (0 : ℝ) < sigma_U 2 2 := by
    rw [hσ]
    norm_num
  exact mwu_value_nonpositive (fun x => x)
    ⟨[(true, 1), (true, 2)], [(true, 3), (true, 4)]⟩ (-4)
    (fun _ hx => hx) (fun _ => Iff.rfl) hs hv

/-- C10: TTestReduction accepts a configuration with an empty group:
whenever exactly two groups are supplied and n1 + n2 ≥ 3, construction
succeeds even with n1 = 0. -/
theorem ttest_accepts_empty_group (n1 n2 : ℕ) (h : 3 ≤ n1 + n2) :
    TTestReduction [n1, n2] = Except.ok () := by
  have hcond : ¬([n1, n2].length ≠ 2 ∨
      [n1, n2].getD 0 0 + [n1, n2].getD 1 0 < 3) := by
    push_neg
    exact ⟨rfl, by simpa using h⟩
  unfold TTestReduction
  rw [if_neg hcond]

/-- C10 witness: groups of sizes 0 and 3 are accepted. -/
theorem ttest_accepts_empty_group_witness :
    TTestReduction [0, 3] = Except.ok () :=
  ttest_accepts_empty_group 0 3 (by omega)

/-- C3 (code bug): lines 308-309 compute mu_U and sigma_U in C int
arithmetic, so the divisions by 2 and by 12 truncate before the results
reach the double fields.  At n1 = n2 = 1 the code stores mu_U = 0 and
sigma_U = 0, while the exact formulas give 0.5 and sqrt(1/4) = 0.5
(sigma_U = 0 then makes every emitted window divide by zero). -/
theorem mwu_constants_integer_division_bug :
    mu_U 1 1 = 0 ∧ mu_U_spec 1 1 = 1 / 2 ∧
    sigma_U 1 1 = 0 ∧ sigma_U_spec 1 1 = 1 / 2 := by
  refine ⟨by norm_num [mu_U], by norm_num [mu_U_spec], ?_, ?_⟩
  · unfold sigma_U
    norm_num
  · unfold sigma_U_spec
    push_cast
    rw [show (1 * 1 * (1 + 1 + 1) : ℝ) / 12 = (1 / 2) ^ 2 by norm_num]
    rw [Real.sqrt_sq (by norm_num)]
